import Mathlib

/-!
Verification development for the `not-vim` terminal text editor.

The repository contains several snapshots of the same editor. The code
embedded here is translated from:

* `src/src/not_vim_term/tui/mod.rs` — `Cell`, `Buffer`, `enumerate_2d`,
  `Buffer::diff`, `Buffer::resize`, `Terminal` (two buffers and an index);
* `src/src/tui/frame.rs` — `Frame::set_char`;
* `src/src/tui/text.rs` — `Style`, `Modifier`, `StyleChange`,
  `Style::diff`, `StyleChange::write_ansi`;
* `src/src/editor/mod.rs` and `src/src/editor/buffer.rs` — the line-vector
  editor (`push`, `backspace`, `newline`, cursor movement, `trim_newlines`);
* `src/not_vim/src/editor/buffer.rs` — the rope-based buffer
  (`push`, `backspace`, `newline`, `open`);
* `src/src/config.rs` — the key translator (`normal_mode_event`,
  `insert_mode_event`, `translate_event`).

Machine integers (`u16`, `usize`) are modelled as `Nat`; in the operations
embedded here the Rust code never overflows nor truncates under the stated
invariants, so no modular reduction is needed. Rust `char` is Lean `Char`,
`String`s are `List Char` (character-indexed, as all the cited code uses
single-byte ASCII examples and per-character operations). Fallible
operations return `Except`.
-/

namespace NotVim

/-- `Rect` from `src/src/tui/rect.rs` (and identically in
`src/src/not_vim_term/tui/rect.rs`): a rectangular region of the terminal,
fields `top`, `left`, `height`, `width` (all `u16`, modelled as `Nat`). -/
structure Rect where
  top : Nat
  left : Nat
  height : Nat
  width : Nat
  deriving DecidableEq, Repr

/-- `crossterm::style::Color` as used by the editor: a terminal-default
sentinel (`reset`), the named colors, and the parameterized forms. -/
inductive Color where
  | reset
  | black
  | darkGrey
  | red
  | darkRed
  | green
  | darkGreen
  | yellow
  | darkYellow
  | blue
  | darkBlue
  | magenta
  | darkMagenta
  | cyan
  | darkCyan
  | white
  | grey
  | rgb (r g b : Nat)
  | ansiValue (v : Nat)
  deriving DecidableEq, Repr

/-- The `Modifier` bitflags from `src/src/tui/text.rs`: one flag per text
attribute, modelled as one `Bool` per bit. -/
structure Modifier where
  bold : Bool
  dim : Bool
  italic : Bool
  underlined : Bool
  slowBlink : Bool
  rapidBlink : Bool
  reversed : Bool
  hidden : Bool
  crossedOut : Bool
  deriving DecidableEq, Repr

namespace Modifier

/-- `Modifier::empty()`: no flags set. -/
def empty : Modifier :=
  ⟨false, false, false, false, false, false, false, false, false⟩

/-- Bitflags set difference (`a - b` in Rust bitflags): keep the bits of
`a` that are not in `b`. -/
def sdiff (a b : Modifier) : Modifier where
  bold := a.bold && !b.bold
  dim := a.dim && !b.dim
  italic := a.italic && !b.italic
  underlined := a.underlined && !b.underlined
  slowBlink := a.slowBlink && !b.slowBlink
  rapidBlink := a.rapidBlink && !b.rapidBlink
  reversed := a.reversed && !b.reversed
  hidden := a.hidden && !b.hidden
  crossedOut := a.crossedOut && !b.crossedOut

/-- Bitflags union (`a | b` in Rust bitflags). -/
def union (a b : Modifier) : Modifier where
  bold := a.bold || b.bold
  dim := a.dim || b.dim
  italic := a.italic || b.italic
  underlined := a.underlined || b.underlined
  slowBlink := a.slowBlink || b.slowBlink
  rapidBlink := a.rapidBlink || b.rapidBlink
  reversed := a.reversed || b.reversed
  hidden := a.hidden || b.hidden
  crossedOut := a.crossedOut || b.crossedOut

/-- Bitflags intersection (`a & b` in Rust bitflags). -/
def inter (a b : Modifier) : Modifier where
  bold := a.bold && b.bold
  dim := a.dim && b.dim
  italic := a.italic && b.italic
  underlined := a.underlined && b.underlined
  slowBlink := a.slowBlink && b.slowBlink
  rapidBlink := a.rapidBlink && b.rapidBlink
  reversed := a.reversed && b.reversed
  hidden := a.hidden && b.hidden
  crossedOut := a.crossedOut && b.crossedOut

end Modifier

/-- `Style` from `src/src/tui/text.rs`: foreground and background colors
plus the set of active modifiers. -/
structure Style where
  fg : Color
  bg : Color
  modifiers : Modifier
  deriving DecidableEq, Repr

/-- `Style::default()`: both colors `Reset`, no modifiers. -/
def Style.default : Style :=
  ⟨Color.reset, Color.reset, Modifier.empty⟩

/-- `StyleChange` from `src/src/tui/text.rs`: the delta between two
styles. -/
structure StyleChange where
  fg : Option Color
  bg : Option Color
  addModifier : Modifier
  subModifier : Modifier
  deriving DecidableEq, Repr

/-- `Style::diff` from `src/src/tui/text.rs` lines 214-229: the
`StyleChange` required to move the terminal from `prevStyle` to `self`. -/
def Style.diff (self prevStyle : Style) : StyleChange where
  fg := if self.fg ≠ prevStyle.fg then some self.fg else none
  bg := if self.bg ≠ prevStyle.bg then some self.bg else none
  addModifier := self.modifiers.sdiff prevStyle.modifiers
  subModifier := prevStyle.modifiers.sdiff self.modifiers

/-- `Cell` from `src/src/not_vim_term/tui/mod.rs`: the symbol shown at one
terminal position together with its style. -/
structure Cell where
  symbol : Char
  style : Style
  deriving DecidableEq, Repr

/-- `Cell::default()`: a space with the default style. -/
def Cell.default : Cell :=
  ⟨' ', Style.default⟩

/-- A grid `Buffer` from `src/src/not_vim_term/tui/mod.rs`: the cells in
row-major order plus the area they represent. The code's invariant is
`content.len() == area.width * area.height` (asserted by
`enumerate_2d`). -/
structure Buffer where
  content : List Cell
  area : Rect
  deriving DecidableEq, Repr

/-- Helper for `enumerate_2d`: pair each cell with its 2d coordinates,
starting the linear offset count at `k`. -/
def enumerate2dFrom (w : Nat) : Nat → List Cell → List (Cell × Nat × Nat)
  | _, [] => []
  | k, c :: rest => (c, k % w, k / w) :: enumerate2dFrom w (k + 1) rest

/-- `enumerate_2d` from `src/src/not_vim_term/tui/mod.rs` lines 86-99:
enumerate the cells of a row-major vector with their 2d coordinates
`(i % width, i / width)`. (The Rust function also asserts
`items.len() == area.width * area.height`; theorems that depend on that
invariant take it as a hypothesis.) -/
def enumerate2d (items : List Cell) (area : Rect) : List (Cell × Nat × Nat) :=
  enumerate2dFrom area.width 0 items

/-- `Buffer::diff` from `src/src/not_vim_term/tui/mod.rs` lines 50-62
(the same code appears at `src/src/tui/mod.rs` lines 44-56): if the areas
differ, every cell of `self`; otherwise the cells of `self` that differ
from `other` at the index `y * width + x`. -/
def Buffer.diff (self other : Buffer) : List (Cell × Nat × Nat) :=
  if self.area ≠ other.area then
    enumerate2d self.content self.area
  else
    (enumerate2d self.content self.area).filter fun t =>
      t.1 ≠ other.content.getD (t.2.2 * self.area.width + t.2.1) Cell.default

/-- `Vec::resize(new_len, value)`: truncate to `n` elements or pad with
`d` up to `n` elements. -/
def listResize (l : List α) (n : Nat) (d : α) : List α :=
  l.take n ++ List.replicate (n - l.length) d

/-- `Buffer::resize` from `src/src/not_vim_term/tui/mod.rs` lines 68-74:
reassign the area and resize the content vector, default-filling. -/
def Buffer.resize (self : Buffer) (newArea : Rect) : Buffer where
  area := newArea
  content := listResize self.content (newArea.width * newArea.height) Cell.default

theorem listResize_length (l : List α) (n : Nat) (d : α) :
    (listResize l n d).length = n := by
  simp [listResize]
  omega

theorem Buffer.resize_content_length (self : Buffer) (newArea : Rect) :
    (self.resize newArea).content.length = newArea.width * newArea.height :=
  listResize_length ..

/-- `Terminal` from `src/src/not_vim_term/tui/mod.rs` lines 112-122: the
two grid buffers and the index of the one being written to (`1 - current`
is the one being displayed). The output stream handle is irrelevant to the
buffer bookkeeping and is omitted. -/
structure Terminal where
  buffers : Fin 2 → Buffer
  currentBufIdx : Fin 2

namespace Terminal

/-- `Terminal::current_buf`: the buffer currently being written to. -/
def currentBuf (t : Terminal) : Buffer :=
  t.buffers t.currentBufIdx

/-- `Terminal::display_buf`: the buffer currently being displayed. -/
def displayBuf (t : Terminal) : Buffer :=
  t.buffers (1 - t.currentBufIdx)

/-- `Terminal::resize` from `src/src/not_vim_term/tui/mod.rs` lines
191-194: resize the buffer currently being written to. The measured
terminal size (`Rect::get_size()`, an environment read) is passed in as
`area`. -/
def resize (t : Terminal) (area : Rect) : Terminal where
  buffers := Function.update t.buffers t.currentBufIdx
    ((t.buffers t.currentBufIdx).resize area)
  currentBufIdx := t.currentBufIdx

/-- The cell writes emitted by `Terminal::flush` (`src/src/not_vim_term/
tui/mod.rs` lines 139-171): one `MoveTo`/`Print` write per element of
`current_buf().diff(display_buf())`, in that order. -/
def flushCells (t : Terminal) : List (Cell × Nat × Nat) :=
  t.currentBuf.diff t.displayBuf

end Terminal

/-- Helper for `Frame::set_char`: Rust `content[i].symbol = c`, i.e.
replace the symbol of the `i`-th cell, keeping its style. Out-of-range
indices leave the list unchanged (the theorems only use in-range ones). -/
def setSymbolAt (l : List Cell) (i : Nat) (c : Char) : List Cell :=
  match l, i with
  | [], _ => []
  | cell :: rest, 0 => ⟨c, cell.style⟩ :: rest
  | cell :: rest, j + 1 => cell :: setSymbolAt rest j c

/-- `Frame::set_char` from `src/src/tui/frame.rs` lines 31-44: writes
beyond the buffer's width or height return without touching the buffer;
otherwise the symbol at row-major index `x + width * y` is set to `c`.
(A `Frame` is just a mutable handle on a `Buffer`, so it is modelled as a
function on `Buffer`.) -/
def Frame.setChar (buffer : Buffer) (c : Char) (x y : Nat) : Buffer :=
  if x ≥ buffer.area.width then buffer
  else if y ≥ buffer.area.height then buffer
  else { buffer with
         content := setSymbolAt buffer.content (x + buffer.area.width * y) c }

/-- The `crossterm` attribute codes that `StyleChange::write_ansi` can
emit. -/
inductive Attr where
  | reset
  | bold
  | dim
  | italic
  | underlined
  | slowBlink
  | rapidBlink
  | reverse
  | hidden
  | crossedOut
  | normalIntensity
  | noItalic
  | noUnderline
  | noBlink
  | noReverse
  | noHide
  | notCrossedOut
  deriving DecidableEq, Repr

/-- One terminal control command queued by `StyleChange::write_ansi`. -/
inductive AnsiCmd where
  | setForegroundColor (c : Color)
  | setBackgroundColor (c : Color)
  | setAttribute (a : Attr)
  deriving DecidableEq, Repr

/-- The color-change commands of `StyleChange::write_ansi`
(`src/src/tui/text.rs` lines 279-284): optional foreground then optional
background. -/
def StyleChange.colorCmds (sc : StyleChange) : List AnsiCmd :=
  (match sc.fg with
   | some fg => [AnsiCmd.setForegroundColor fg]
   | none => []) ++
  (match sc.bg with
   | some bg => [AnsiCmd.setBackgroundColor bg]
   | none => [])

/-- The attribute-removal commands of `StyleChange::write_ansi`
(`src/src/tui/text.rs` lines 286-308): one removal code per set
`sub_modifier` flag, in the source's order (the two blink flags share a
single `NoBlink` code). -/
def StyleChange.subCmds (sc : StyleChange) : List AnsiCmd :=
  (if sc.subModifier.reversed then [AnsiCmd.setAttribute Attr.noReverse] else []) ++
  (if sc.subModifier.bold then [AnsiCmd.setAttribute Attr.normalIntensity] else []) ++
  (if sc.subModifier.italic then [AnsiCmd.setAttribute Attr.noItalic] else []) ++
  (if sc.subModifier.underlined then [AnsiCmd.setAttribute Attr.noUnderline] else []) ++
  (if sc.subModifier.dim then [AnsiCmd.setAttribute Attr.normalIntensity] else []) ++
  (if sc.subModifier.crossedOut then [AnsiCmd.setAttribute Attr.notCrossedOut] else []) ++
  (if sc.subModifier.slowBlink || sc.subModifier.rapidBlink then
     [AnsiCmd.setAttribute Attr.noBlink] else [])

/-- The attribute-addition commands of `StyleChange::write_ansi`
(`src/src/tui/text.rs` lines 310-333): one addition code per set
`add_modifier` flag, in the source's order. -/
def StyleChange.addCmds (sc : StyleChange) : List AnsiCmd :=
  (if sc.addModifier.reversed then [AnsiCmd.setAttribute Attr.reverse] else []) ++
  (if sc.addModifier.bold then [AnsiCmd.setAttribute Attr.bold] else []) ++
  (if sc.addModifier.italic then [AnsiCmd.setAttribute Attr.italic] else []) ++
  (if sc.addModifier.underlined then [AnsiCmd.setAttribute Attr.underlined] else []) ++
  (if sc.addModifier.dim then [AnsiCmd.setAttribute Attr.dim] else []) ++
  (if sc.addModifier.crossedOut then [AnsiCmd.setAttribute Attr.crossedOut] else []) ++
  (if sc.addModifier.slowBlink then [AnsiCmd.setAttribute Attr.slowBlink] else []) ++
  (if sc.addModifier.rapidBlink then [AnsiCmd.setAttribute Attr.rapidBlink] else [])

/-- `StyleChange::write_ansi` from `src/src/tui/text.rs` lines 278-336,
as the sequence of commands it writes: the optional color changes, then
the removal codes for `sub_modifier`, then the addition codes for
`add_modifier`. -/
def StyleChange.writeAnsi (sc : StyleChange) : List AnsiCmd :=
  sc.colorCmds ++ sc.subCmds ++ sc.addCmds

/-- The attribute-removal codes: those `write_ansi` derives from
`sub_modifier` flags. -/
def AnsiCmd.isRemovalCode : AnsiCmd → Bool
  | AnsiCmd.setAttribute Attr.noReverse => true
  | AnsiCmd.setAttribute Attr.normalIntensity => true
  | AnsiCmd.setAttribute Attr.noItalic => true
  | AnsiCmd.setAttribute Attr.noUnderline => true
  | AnsiCmd.setAttribute Attr.notCrossedOut => true
  | AnsiCmd.setAttribute Attr.noBlink => true
  | _ => false

/-- The attribute-addition codes: those `write_ansi` derives from
`add_modifier` flags. -/
def AnsiCmd.isAdditionCode : AnsiCmd → Bool
  | AnsiCmd.setAttribute Attr.reverse => true
  | AnsiCmd.setAttribute Attr.bold => true
  | AnsiCmd.setAttribute Attr.italic => true
  | AnsiCmd.setAttribute Attr.underlined => true
  | AnsiCmd.setAttribute Attr.dim => true
  | AnsiCmd.setAttribute Attr.crossedOut => true
  | AnsiCmd.setAttribute Attr.slowBlink => true
  | AnsiCmd.setAttribute Attr.rapidBlink => true
  | _ => false

/-! ### The editor model

`src/src/editor/mod.rs` defines the `Editor` (cursor movement) and
delegates `push`/`backspace`/`newline` to the text `Buffer` of
`src/src/editor/buffer.rs`, which stores the document as a vector of
lines (`Vec<String>`, modelled as `List (List Char)`). The `Editor` holds
a `BTreeMap` of buffers but only ever creates and uses the one with key
`0` (see `Editor::open`), so the state is modelled as that single buffer
plus the cursor. -/

/-- Is `c` one of the line-terminator characters recognized by
`trim_newlines` in `src/src/editor/mod.rs` lines 159-178 (LF, CR, VT, FF,
NEL, LS, PS)? -/
def isNewlineChar (c : Char) : Bool :=
  c = Char.ofNat 0x000A || c = Char.ofNat 0x000D || c = Char.ofNat 0x000B ||
  c = Char.ofNat 0x000C || c = Char.ofNat 0x0085 || c = Char.ofNat 0x2028 ||
  c = Char.ofNat 0x2029

/-- `trim_newlines` from `src/src/editor/mod.rs` lines 159-178: drop the
trailing run of line-terminator characters from a line. (The Rust code
walks the line backwards counting terminator characters, then slices them
off; dropping the matching prefix of the reversed line is the same
computation.) -/
def trimNewlines (line : List Char) : List Char :=
  (line.reverse.dropWhile isNewlineChar).reverse

/-- The state of the line-vector editor: the lines of the single open
buffer (`Buffer.lines` in `src/src/editor/buffer.rs`) and the cursor
`selected_pos` of `src/src/editor/mod.rs` in `(x, y)` = (column, row)
format. -/
structure EditorState where
  lines : List (List Char)
  cursor : Nat × Nat
  deriving DecidableEq, Repr

namespace EditorState

/-- The line the cursor addresses (Rust indexes `lines[y]`, which under
the cursor invariant is in range). -/
def lineAt (s : EditorState) (y : Nat) : List Char :=
  s.lines.getD y []

/-- `String::insert(x, c)` at character granularity. -/
def insertAt (l : List Char) (x : Nat) (c : Char) : List Char :=
  l.take x ++ c :: l.drop x

/-- `Buffer::push` from `src/src/editor/buffer.rs` lines 37-44 (called
through `Editor::push`): insert `c` at column `x` of line `y` and advance
the column. -/
def push (s : EditorState) (c : Char) : EditorState :=
  let x := s.cursor.1
  let y := s.cursor.2
  { lines := s.lines.set y (insertAt (s.lineAt y) x c)
    cursor := (x + 1, y) }

/-- `Buffer::backspace` from `src/src/editor/buffer.rs` lines 47-64
(called through `Editor::backspace`): at column 0 of row 0, do nothing;
at column 0 of a later row, remove that row and append its text to the
previous row, placing the cursor at the junction; otherwise remove the
character before the cursor and retreat the column. -/
def backspace (s : EditorState) : EditorState :=
  let x := s.cursor.1
  let y := s.cursor.2
  if x = 0 then
    if y ≠ 0 then
      let originalLen := (s.lineAt (y - 1)).length
      let extraLine := s.lineAt y
      { lines := (s.lines.set (y - 1) (s.lineAt (y - 1) ++ extraLine)).eraseIdx y
        cursor := (originalLen, y - 1) }
    else s
  else
    { lines := s.lines.set y ((s.lineAt y).eraseIdx (x - 1))
      cursor := (x - 1, y) }

/-- `Buffer::newline` from `src/src/editor/buffer.rs` lines 69-75 (called
through `Editor::newline`): truncate line `y` at the cursor column, insert
the removed tail as a new line right below, and move the cursor to the
start of that line. -/
def newline (s : EditorState) : EditorState :=
  let x := s.cursor.1
  let y := s.cursor.2
  let newText := (s.lineAt y).drop x
  { lines := (s.lines.set y ((s.lineAt y).take x)).insertIdx (y + 1) newText
    cursor := (0, y + 1) }

/-- `Editor::move_left` from `src/src/editor/mod.rs` lines 89-93. -/
def moveLeft (s : EditorState) : EditorState :=
  if s.cursor.1 ≠ 0 then { s with cursor := (s.cursor.1 - 1, s.cursor.2) } else s

/-- `Editor::move_right` from `src/src/editor/mod.rs` lines 99-110:
advance the column unless it has reached the (trimmed) length of the
current line. -/
def moveRight (s : EditorState) : EditorState :=
  if s.cursor.1 < (trimNewlines (s.lineAt s.cursor.2)).length then
    { s with cursor := (s.cursor.1 + 1, s.cursor.2) }
  else s

/-- `Editor::move_down` from `src/src/editor/mod.rs` lines 116-131: do
nothing on the last row; otherwise advance the row and clamp the column
to the (trimmed) length of the destination line. -/
def moveDown (s : EditorState) : EditorState :=
  if s.cursor.2 = s.lines.length - 1 then s
  else
    let y := s.cursor.2 + 1
    let lineLen := (trimNewlines (s.lineAt y)).length
    { s with cursor := (if s.cursor.1 > lineLen then lineLen else s.cursor.1, y) }

/-- `Editor::move_up` from `src/src/editor/mod.rs` lines 137-150: do
nothing on row 0; otherwise retreat the row and clamp the column to the
(trimmed) length of the destination line. -/
def moveUp (s : EditorState) : EditorState :=
  if s.cursor.2 ≠ 0 then
    let y := s.cursor.2 - 1
    let lineLen := (trimNewlines (s.lineAt y)).length
    { s with cursor := (if s.cursor.1 > lineLen then lineLen else s.cursor.1, y) }
  else s

end EditorState

/-- One editor operation of the kinds listed in the cursor-invariant
property. -/
inductive EditOp where
  | push (c : Char)
  | backspace
  | newline
  | moveLeft
  | moveRight
  | moveUp
  | moveDown
  deriving DecidableEq, Repr

/-- Apply one operation to the editor state. -/
def EditOp.apply (s : EditorState) : EditOp → EditorState
  | EditOp.push c => s.push c
  | EditOp.backspace => s.backspace
  | EditOp.newline => s.newline
  | EditOp.moveLeft => s.moveLeft
  | EditOp.moveRight => s.moveRight
  | EditOp.moveUp => s.moveUp
  | EditOp.moveDown => s.moveDown

/-- Apply a sequence of operations, first one first. -/
def applyOps (s : EditorState) (ops : List EditOp) : EditorState :=
  ops.foldl EditOp.apply s

/-- The cursor invariant from the specification: the row addresses an
existing line and the column is at most that line's length. -/
def cursorValid (s : EditorState) : Prop :=
  s.cursor.2 < s.lines.length ∧ s.cursor.1 ≤ (s.lineAt s.cursor.2).length

instance : DecidablePred cursorValid := fun s => by
  unfold cursorValid; infer_instance

/-! ### The rope-based buffer

`src/not_vim/src/editor/buffer.rs` stores the document as a single
`ropey::Rope`, modelled as the flat character sequence `List Char`.
Ropey (with its default `unicode_lines` feature) recognizes the same
seven line-terminator characters as `trim_newlines` above, treating CRLF
as a single break. -/

/-- `Rope::lines()`: the lines of the text, each including its trailing
line break, with one final (possibly empty) line after the last break. A
carriage return directly followed by a line feed forms a single CRLF
break, so it is prepended to the line the following line feed already
terminates; any other break character terminates a line of its own. -/
def ropeLines : List Char → List (List Char)
  | [] => [[]]
  | c :: rest =>
    if c = Char.ofNat 0x0D then
      if rest.head? = some (Char.ofNat 0x0A) then
        match ropeLines rest with
        | [] => [[c]]
        | l :: ls => (c :: l) :: ls
      else [c] :: ropeLines rest
    else if isNewlineChar c then [c] :: ropeLines rest
    else
      match ropeLines rest with
      | [] => [[c]]
      | l :: ls => (c :: l) :: ls

/-- `Rope::line_to_char(y)`: the character index at which line `y`
starts — the total length of the lines (breaks included) before it. -/
def lineToChar (text : List Char) (y : Nat) : Nat :=
  (((ropeLines text).take y).map List.length).sum

/-- The state of the rope-based buffer together with the cursor the
caller passes by mutable reference. -/
structure RopeState where
  text : List Char
  cursor : Nat × Nat
  deriving DecidableEq, Repr

namespace RopeState

/-- `Buffer::push` from `src/not_vim/src/editor/buffer.rs` lines 59-63:
insert `c` at character index `line_to_char(y) + x` and advance the
column. -/
def push (s : RopeState) (c : Char) : RopeState :=
  let charIdx := lineToChar s.text s.cursor.2 + s.cursor.1
  { text := s.text.take charIdx ++ c :: s.text.drop charIdx
    cursor := (s.cursor.1 + 1, s.cursor.2) }

/-- `Buffer::backspace` from `src/not_vim/src/editor/buffer.rs` lines
66-80: a no-op at column 0; otherwise remove the single character at
index `line_to_char(y) + x - 1` and retreat the column. -/
def backspace (s : RopeState) : RopeState :=
  if s.cursor.1 = 0 then s
  else
    let charIdx := lineToChar s.text s.cursor.2 + s.cursor.1 - 1
    { text := s.text.eraseIdx charIdx
      cursor := (s.cursor.1 - 1, s.cursor.2) }

/-- `Buffer::newline` from `src/not_vim/src/editor/buffer.rs` lines
85-90: insert a line feed at index `line_to_char(y) + x` and move the
cursor to the start of the next line. -/
def newline (s : RopeState) : RopeState :=
  let charIdx := lineToChar s.text s.cursor.2 + s.cursor.1
  { text := s.text.take charIdx ++ Char.ofNat 0x0A :: s.text.drop charIdx
    cursor := (0, s.cursor.2 + 1) }

end RopeState

/-! ### Opening files

File-system access is modelled by an oracle giving, for each path, the
outcome of `std::fs::File::open` plus the full read: the file's content
on success, or the `std::io::ErrorKind` of the failure. -/

/-- Outcome of opening and reading a file at some path. -/
inductive FsOutcome where
  | ok (content : List Char)
  | notFound
  | permissionDenied
  | otherError
  deriving DecidableEq, Repr

/-- The distinguishable error results of the two `Buffer::open`
implementations. -/
inductive OpenError where
  /-- `Permission denied` context added by the rope-based `open`. -/
  | permissionDenied
  /-- `Unknown error opening file` context added by the rope-based
  `open`. -/
  | unknown
  /-- `Opening file ... failed.` context added by the line-vector `open`
  for every failure kind. -/
  | openFailed
  deriving DecidableEq, Repr

/-- The rope-based buffer as stored (text plus associated file). -/
structure RopeBuffer where
  text : List Char
  file : Option String
  deriving DecidableEq, Repr

/-- `Buffer::open` from `src/not_vim/src/editor/buffer.rs` lines 31-56:
read the file into a rope; a `NotFound` error yields an empty buffer
still associated with the path; `PermissionDenied` and any other error
are returned as errors. -/
def RopeBuffer.open (fs : String → FsOutcome) (fname : String) :
    Except OpenError RopeBuffer :=
  match fs fname with
  | FsOutcome.ok content => Except.ok ⟨content, some fname⟩
  | FsOutcome.notFound => Except.ok ⟨[], some fname⟩
  | FsOutcome.permissionDenied => Except.error OpenError.permissionDenied
  | FsOutcome.otherError => Except.error OpenError.unknown

/-- Remove one trailing carriage return (the `\r` of a `\r\n` line
ending), as Rust's `str::lines` does on each `\n`-terminated segment. -/
def stripTrailingCR (l : List Char) : List Char :=
  if l.getLast? = some (Char.ofNat 0x0D) then l.dropLast else l

/-- Rust `str::lines()`: split on `\n`, dropping a `\r` directly before
each `\n`; the final line ending is optional and a trailing empty
segment is not produced. -/
def rustLines (text : List Char) : List (List Char) :=
  if text = [] then []
  else
    let segs := text.splitOn (Char.ofNat 0x0A)
    let init := segs.dropLast.map stripTrailingCR
    match segs.getLast? with
    | some last => if last = [] then init else init ++ [last]
    | none => init

/-- The line-vector buffer as stored (lines plus associated file),
from `src/src/editor/buffer.rs` lines 14-20. -/
structure LineVecBuffer where
  lines : List (List Char)
  file : Option String
  deriving DecidableEq, Repr

/-- `Buffer::open` from `src/src/editor/buffer.rs` lines 24-34: any
failure of `File::open` or of the read — including a nonexistent file —
is propagated as an error (with an `Opening file failed` context);
success collects the file's lines. -/
def LineVecBuffer.open (fs : String → FsOutcome) (fname : String) :
    Except OpenError LineVecBuffer :=
  match fs fname with
  | FsOutcome.ok content => Except.ok ⟨rustLines content, some fname⟩
  | FsOutcome.notFound => Except.error OpenError.openFailed
  | FsOutcome.permissionDenied => Except.error OpenError.openFailed
  | FsOutcome.otherError => Except.error OpenError.openFailed

/-! ### The key translator (`src/src/config.rs`) -/

/-- The editor's two modes (`Mode` from `editor_view.rs`). -/
inductive Mode where
  | normal
  | insert
  deriving DecidableEq, Repr

/-- The key codes the translator distinguishes; every other
`crossterm::event::KeyCode` variant falls through to the catch-all arm
and is modelled by `other`. -/
inductive KeyCode where
  | char (c : Char)
  | left
  | right
  | up
  | down
  | enter
  | backspaceKey
  | esc
  | other
  deriving DecidableEq, Repr

/-- `crossterm::event::KeyModifiers`: one bit per modifier. -/
structure KeyModifiers where
  shift : Bool
  control : Bool
  alt : Bool
  superKey : Bool
  hyper : Bool
  meta : Bool
  deriving DecidableEq, Repr

/-- `KeyModifiers::NONE`. -/
def KeyModifiers.noneSet : KeyModifiers :=
  ⟨false, false, false, false, false, false⟩

/-- `KeyModifiers::CONTROL`. -/
def KeyModifiers.controlSet : KeyModifiers :=
  ⟨false, true, false, false, false, false⟩

/-- `Key` from `src/src/config.rs` lines 141-146. -/
structure Key where
  code : KeyCode
  modifiers : KeyModifiers
  deriving DecidableEq, Repr

/-- `Message` from `src/src/config.rs` lines 110-134. -/
inductive Message where
  | quit
  | write
  | enter
  | backspace
  | left
  | right
  | up
  | down
  | char (c : Char)
  | mode (m : Mode)
  | noAction
  deriving DecidableEq, Repr

/-- `normal_mode_event` from `src/src/config.rs` lines 21-60. Every arm
of the Rust `match` requires `modifiers: KeyModifiers::NONE`, so a key
with any modifier set falls through to the `_ => Message::None` arm. -/
def normalModeEvent (key : Key) : Message :=
  if key.modifiers = KeyModifiers.noneSet then
    match key.code with
    | KeyCode.char c =>
      if c = 'q' then Message.quit
      else if c = 'w' then Message.write
      else if c = 'h' then Message.left
      else if c = 'l' then Message.right
      else if c = 'k' then Message.up
      else if c = 'j' then Message.down
      else if c = 'i' then Message.mode Mode.insert
      else Message.noAction
    | KeyCode.left => Message.left
    | KeyCode.right => Message.right
    | KeyCode.up => Message.up
    | KeyCode.down => Message.down
    | _ => Message.noAction
  else Message.noAction

/-! ### Generic list lemmas used by the proofs -/

theorem getD_set_eq (l : List α) (i : Nat) (v d : α) (h : i < l.length) :
    (l.set i v).getD i d = v := by
  induction l generalizing i with
  | nil => simp at h
  | cons a t ih =>
    cases i with
    | zero => rfl
    | succ j => exact ih j (by simpa using h)

theorem getD_set_ne (l : List α) (i j : Nat) (v d : α) (h : j ≠ i) :
    (l.set i v).getD j d = l.getD j d := by
  induction l generalizing i j with
  | nil => simp [List.set]
  | cons a t ih =>
    cases i with
    | zero =>
      cases j with
      | zero => exact absurd rfl h
      | succ k => rfl
    | succ i' =>
      cases j with
      | zero => rfl
      | succ k => exact ih i' k (fun hk => h (by simp [hk]))

theorem length_eraseIdx_of_lt (l : List α) (i : Nat) (h : i < l.length) :
    (l.eraseIdx i).length = l.length - 1 := by
  induction l generalizing i with
  | nil => simp at h
  | cons a t ih =>
    cases i with
    | zero => simp [List.eraseIdx]
    | succ j =>
      have ht : j < t.length := by simpa using h
      have htn : 0 < t.length := Nat.lt_of_le_of_lt (Nat.zero_le j) ht
      simp [List.eraseIdx, ih j ht]
      omega

theorem getD_eraseIdx_lt (l : List α) (i j : Nat) (d : α) (h : j < i) :
    (l.eraseIdx i).getD j d = l.getD j d := by
  induction l generalizing i j with
  | nil => simp [List.eraseIdx]
  | cons a t ih =>
    cases i with
    | zero => simp at h
    | succ i' =>
      cases j with
      | zero => rfl
      | succ k => exact ih i' k (by omega)

theorem eraseIdx_eq_take_append_drop (l : List α) (i : Nat) (h : i < l.length) :
    l.eraseIdx i = l.take i ++ l.drop (i + 1) := by
  induction l generalizing i with
  | nil => simp at h
  | cons a t ih =>
    cases i with
    | zero => simp [List.eraseIdx]
    | succ j =>
      have ht : j < t.length := by simpa using h
      simp [List.eraseIdx, ih j ht]

theorem set_insertIdx_succ (l : List α) (y : Nat) (a b : α) (h : y < l.length) :
    (l.set y a).insertIdx (y + 1) b = l.take y ++ a :: b :: l.drop (y + 1) := by
  induction l generalizing y with
  | nil => simp at h
  | cons c t ih =>
    cases y with
    | zero => simp [List.insertIdx_succ_cons, List.insertIdx_zero]
    | succ m =>
      have hm : m < t.length := by simpa using h
      simp [List.insertIdx_succ_cons, ih m hm]

theorem dropWhile_length_le (p : α → Bool) (l : List α) :
    (l.dropWhile p).length ≤ l.length := by
  induction l with
  | nil => simp
  | cons a t ih =>
    by_cases hp : p a
    · simp [List.dropWhile, hp]
      omega
    · simp [List.dropWhile, hp]

theorem trimNewlines_length_le (l : List Char) :
    (trimNewlines l).length ≤ l.length := by
  have := dropWhile_length_le isNewlineChar l.reverse
  simpa [trimNewlines] using this

/-! ### Modifier bitset algebra -/

theorem bool_sdiff_sdiff_union :
    ∀ a b : Bool, ((a && !(a && !b)) || (b && !a)) = b := by
  decide

theorem bool_sdiff_disjoint :
    ∀ a b : Bool, ((b && !a) && (a && !b)) = false := by
  decide

theorem Modifier.inter_sdiff_sdiff (old new : Modifier) :
    Modifier.inter (new.sdiff old) (old.sdiff new) = Modifier.empty := by
  cases old
  cases new
  simp only [Modifier.inter, Modifier.sdiff, Modifier.empty, Modifier.mk.injEq]
  refine ⟨?_, ?_, ?_, ?_, ?_, ?_, ?_, ?_, ?_⟩ <;> exact bool_sdiff_disjoint ..

theorem Modifier.sdiff_union_recover (old new : Modifier) :
    Modifier.union (old.sdiff (old.sdiff new)) (new.sdiff old) = new := by
  cases old
  cases new
  simp only [Modifier.union, Modifier.sdiff, Modifier.mk.injEq]
  refine ⟨?_, ?_, ?_, ?_, ?_, ?_, ?_, ?_, ?_⟩ <;> exact bool_sdiff_sdiff_union ..

theorem Modifier.sdiff_self (m : Modifier) : m.sdiff m = Modifier.empty := by
  cases m
  simp only [Modifier.sdiff, Modifier.empty, Modifier.mk.injEq]
  refine ⟨?_, ?_, ?_, ?_, ?_, ?_, ?_, ?_, ?_⟩ <;> simp

/-! ### Claim theorems -/

/-- C9: `Style::diff` reports a foreground (resp. background) change
exactly when the colors differ, its add/sub modifier sets are the two
set differences of the modifier bitsets, those two sets are disjoint,
removing `sub_modifier` from the old modifiers and adding `add_modifier`
recovers the new modifiers, and `s.diff(s)` is the empty change. -/
theorem style_diff_spec (new old s : Style) :
    ((new.diff old).fg = if new.fg = old.fg then none else some new.fg) ∧
    ((new.diff old).bg = if new.bg = old.bg then none else some new.bg) ∧
    (new.diff old).addModifier = new.modifiers.sdiff old.modifiers ∧
    (new.diff old).subModifier = old.modifiers.sdiff new.modifiers ∧
    Modifier.inter (new.diff old).addModifier (new.diff old).subModifier
      = Modifier.empty ∧
    Modifier.union (old.modifiers.sdiff (new.diff old).subModifier)
        (new.diff old).addModifier
      = new.modifiers ∧
    s.diff s = ⟨none, none, Modifier.empty, Modifier.empty⟩ := by
  refine ⟨?_, ?_, rfl, rfl, ?_, ?_, ?_⟩
  · simp only [Style.diff, ne_eq, ite_not]
  · simp only [Style.diff, ne_eq, ite_not]
  · exact Modifier.inter_sdiff_sdiff ..
  · exact Modifier.sdiff_union_recover ..
  · simp [Style.diff, Modifier.sdiff_self]

/-- C7 counterexample: in Normal mode a control-modified `w` keypress is
translated to `Message::None`, not to the save action. -/
theorem normal_mode_ctrl_w_not_write :
    ¬(normalModeEvent ⟨KeyCode.char 'w', KeyModifiers.controlSet⟩ = Message.write ∧
      normalModeEvent ⟨KeyCode.char 'q', KeyModifiers.controlSet⟩ = Message.quit) := by
  decide

/-- C7 (amended): in Normal mode the translator maps the unmodified `w`
keypress to the save (Write) action and the unmodified `q` keypress to
the quit (Quit) action, while any keypress carrying a modifier (control
included) is translated to no action. -/
theorem normal_mode_write_quit_keys :
    normalModeEvent ⟨KeyCode.char 'w', KeyModifiers.noneSet⟩ = Message.write ∧
    normalModeEvent ⟨KeyCode.char 'q', KeyModifiers.noneSet⟩ = Message.quit ∧
    ∀ key : Key, key.modifiers ≠ KeyModifiers.noneSet →
      normalModeEvent key = Message.noAction := by
  refine ⟨rfl, rfl, fun key h => ?_⟩
  simp only [normalModeEvent, if_neg h]

/-- C7 witness: the amended theorem applied to the concrete
control-modified `w` keypress. -/
theorem normal_mode_write_quit_keys_witness :
    normalModeEvent ⟨KeyCode.char 'w', KeyModifiers.controlSet⟩ = Message.noAction :=
  normal_mode_write_quit_keys.2.2 ⟨KeyCode.char 'w', KeyModifiers.controlSet⟩
    (by decide)

theorem setSymbolAt_length (l : List Cell) (i : Nat) (c : Char) :
    (setSymbolAt l i c).length = l.length := by
  induction l generalizing i with
  | nil => rfl
  | cons a t ih =>
    cases i with
    | zero => rfl
    | succ j => simp [setSymbolAt, ih j]

theorem setSymbolAt_getD_eq (l : List Cell) (i : Nat) (c : Char) (d : Cell)
    (h : i < l.length) :
    (setSymbolAt l i c).getD i d = ⟨c, (l.getD i d).style⟩ := by
  induction l generalizing i with
  | nil => simp at h
  | cons a t ih =>
    cases i with
    | zero => rfl
    | succ j => exact ih j (by simpa using h)

theorem setSymbolAt_getD_ne (l : List Cell) (i j : Nat) (c : Char) (d : Cell)
    (h : j ≠ i) :
    (setSymbolAt l i c).getD j d = l.getD j d := by
  induction l generalizing i j with
  | nil => simp [setSymbolAt]
  | cons a t ih =>
    cases i with
    | zero =>
      cases j with
      | zero => exact absurd rfl h
      | succ k => rfl
    | succ i' =>
      cases j with
      | zero => rfl
      | succ k => exact ih i' k (fun hk => h (by simp [hk]))

/-- C10: with the grid invariant, `Frame::set_char` at coordinates at or
beyond the area's width or height leaves the buffer (hence every cell)
unchanged, while at in-bounds coordinates it changes exactly the symbol
of the cell at row-major index `x + width * y`, keeping that cell's
style, every other cell, the length, and the area. -/
theorem frame_setChar_spec (b : Buffer) (c : Char) (x y : Nat)
    (hinv : b.content.length = b.area.width * b.area.height) :
    ((b.area.width ≤ x ∨ b.area.height ≤ y) → Frame.setChar b c x y = b) ∧
    (x < b.area.width → y < b.area.height →
      (Frame.setChar b c x y).area = b.area ∧
      (Frame.setChar b c x y).content.length = b.content.length ∧
      ∀ j, j < b.content.length →
        (Frame.setChar b c x y).content.getD j Cell.default =
          if j = x + b.area.width * y
          then ⟨c, (b.content.getD j Cell.default).style⟩
          else b.content.getD j Cell.default) := by
  constructor
  · intro h
    rcases h with h | h
    · simp [Frame.setChar, h]
    · by_cases hx : b.area.width ≤ x
      · simp [Frame.setChar, hx]
      · simp [Frame.setChar, hx, h]
  · intro hx hy
    have hxw : ¬b.area.width ≤ x := Nat.not_le_of_lt hx
    have hyh : ¬b.area.height ≤ y := Nat.not_le_of_lt hy
    have hstep : Frame.setChar b c x y =
        { b with content := setSymbolAt b.content (x + b.area.width * y) c } := by
      simp [Frame.setChar, hxw, hyh]
    have hidx : x + b.area.width * y < b.content.length := by
      have h1 : x + b.area.width * y < b.area.width * (y + 1) := by
        rw [Nat.mul_add, Nat.mul_one]
        omega
      have h2 : b.area.width * (y + 1) ≤ b.area.width * b.area.height :=
        Nat.mul_le_mul_left _ hy
      omega
    refine ⟨by rw [hstep], by rw [hstep]; exact setSymbolAt_length .., ?_⟩
    intro j hj
    rw [hstep]
    by_cases hji : j = x + b.area.width * y
    · subst hji
      simp only [if_pos rfl]
      exact setSymbolAt_getD_eq b.content _ c Cell.default hidx
    · simp only [if_neg hji]
      exact setSymbolAt_getD_ne b.content _ j c Cell.default hji

/-- C10 witness: the theorem applied to a concrete 2×2 buffer, for an
out-of-bounds write at `(2, 0)` and an in-bounds write at `(1, 1)`. -/
theorem frame_setChar_spec_witness :
    Frame.setChar ⟨List.replicate 4 Cell.default, ⟨0, 0, 2, 2⟩⟩ 'z' 2 0 =
      ⟨List.replicate 4 Cell.default, ⟨0, 0, 2, 2⟩⟩ ∧
    (Frame.setChar ⟨List.replicate 4 Cell.default, ⟨0, 0, 2, 2⟩⟩ 'z' 1 1).content.getD
        3 Cell.default = ⟨'z', Style.default⟩ :=
  ⟨(frame_setChar_spec ⟨List.replicate 4 Cell.default, ⟨0, 0, 2, 2⟩⟩ 'z' 2 0
      (by decide)).1 (by decide),
   by
    have h := ((frame_setChar_spec ⟨List.replicate 4 Cell.default, ⟨0, 0, 2, 2⟩⟩
      'z' 1 1 (by decide)).2 (by decide) (by decide)).2.2 3 (by decide)
    simpa using h⟩

theorem mem_ite_singleton {α : Type _} {c x : α} {b : Prop} [Decidable b]
    (h : c ∈ if b then [x] else ([] : List α)) : c = x := by
  split at h
  · simpa using h
  · simp at h

theorem colorCmds_not_addition (sc : StyleChange) :
    ∀ cmd ∈ sc.colorCmds, cmd.isAdditionCode = false := by
  intro cmd h
  simp only [StyleChange.colorCmds, List.mem_append] at h
  rcases h with h | h <;>
    · split at h <;> simp at h <;> simp [h, AnsiCmd.isAdditionCode]

theorem subCmds_not_addition (sc : StyleChange) :
    ∀ cmd ∈ sc.subCmds, cmd.isAdditionCode = false := by
  intro cmd h
  simp only [StyleChange.subCmds, List.mem_append] at h
  rcases h with ((((((h | h) | h) | h) | h) | h) | h) <;>
    · rw [mem_ite_singleton h]
      rfl

theorem addCmds_not_removal (sc : StyleChange) :
    ∀ cmd ∈ sc.addCmds, cmd.isRemovalCode = false := by
  intro cmd h
  simp only [StyleChange.addCmds, List.mem_append] at h
  rcases h with (((((((h | h) | h) | h) | h) | h) | h) | h) <;>
    · rw [mem_ite_singleton h]
      rfl

/-- C8: in the command sequence written by `StyleChange::write_ansi`,
every attribute-removal code (derived from the `sub_modifier` set) is
emitted strictly before every attribute-addition code (derived from the
`add_modifier` set). -/
theorem writeAnsi_removals_before_additions (sc : StyleChange) (i j : Nat)
    (hi : i < sc.writeAnsi.length) (hj : j < sc.writeAnsi.length)
    (hrem : (sc.writeAnsi.getD i (AnsiCmd.setAttribute Attr.reset)).isRemovalCode
      = true)
    (hadd : (sc.writeAnsi.getD j (AnsiCmd.setAttribute Attr.reset)).isAdditionCode
      = true) :
    i < j := by
  have hL : sc.writeAnsi = (sc.colorCmds ++ sc.subCmds) ++ sc.addCmds := by
    simp [StyleChange.writeAnsi, List.append_assoc]
  set P := sc.colorCmds ++ sc.subCmds with hP
  set A := sc.addCmds with hA
  have hPnoAdd : ∀ cmd ∈ P, cmd.isAdditionCode = false := by
    intro cmd h
    rcases List.mem_append.1 h with h | h
    · exact colorCmds_not_addition sc cmd h
    · exact subCmds_not_addition sc cmd h
  have hAnoRem : ∀ cmd ∈ A, cmd.isRemovalCode = false := addCmds_not_removal sc
  rw [hL] at hi hj hrem hadd
  have hiP : i < P.length := by
    by_contra hge
    push_neg at hge
    have hmem : (P ++ A)[i] ∈ A := by
      rw [List.getElem_append_right hge]
      exact List.getElem_mem _
    rw [List.getD_eq_getElem _ _ hi] at hrem
    rw [hAnoRem _ hmem] at hrem
    exact Bool.false_ne_true hrem
  have hjP : P.length ≤ j := by
    by_contra hlt
    push_neg at hlt
    have hmem : (P ++ A)[j] ∈ P := by
      rw [List.getElem_append_left hlt]
      exact List.getElem_mem _
    rw [List.getD_eq_getElem _ _ hj] at hadd
    rw [hPnoAdd _ hmem] at hadd
    exact Bool.false_ne_true hadd
  omega

/-- C8 witness: for the style change that removes bold and adds italic,
the removal code sits at index 0 and the addition code at index 1, and
the theorem yields 0 < 1. -/
theorem writeAnsi_removals_before_additions_witness :
    0 <
      (StyleChange.writeAnsi
        ⟨none, none,
         ⟨false, false, true, false, false, false, false, false, false⟩,
         ⟨true, false, false, false, false, false, false, false, false⟩⟩).length ∧
    1 <
      (StyleChange.writeAnsi
        ⟨none, none,
         ⟨false, false, true, false, false, false, false, false, false⟩,
         ⟨true, false, false, false, false, false, false, false, false⟩⟩).length ∧
    (0 : Nat) < 1 :=
  ⟨by decide, by decide,
   writeAnsi_removals_before_additions
     ⟨none, none,
      ⟨false, false, true, false, false, false, false, false, false⟩,
      ⟨true, false, false, false, false, false, false, false, false⟩⟩
     0 1 (by decide) (by decide) (by decide) (by decide)⟩

/-- A file-system oracle on which every path is missing. -/
def fsAllNotFound : String → FsOutcome :=
  fun _ => FsOutcome.notFound

/-- C5 counterexample: the line-vector `Buffer::open`
(`src/src/editor/buffer.rs`) does not succeed on a nonexistent file — it
does not produce the empty path-associated buffer the claim promises,
returning its `Opening file failed` error instead. -/
theorem lineVec_open_notFound_fails :
    LineVecBuffer.open fsAllNotFound "a" ≠
      Except.ok ⟨[], some "a"⟩ := by
  simp [LineVecBuffer.open, fsAllNotFound]

/-- C5 (amended): the rope-based `Buffer::open`
(`src/not_vim/src/editor/buffer.rs`) treats a nonexistent file as a new
empty buffer associated with the path and surfaces permission-denied and
other I/O failures as errors, while the line-vector `Buffer::open`
(`src/src/editor/buffer.rs`) returns an error for every failed open,
nonexistent files included. -/
theorem open_error_handling (fs : String → FsOutcome) (fname : String) :
    (fs fname = FsOutcome.notFound →
      RopeBuffer.open fs fname = Except.ok ⟨[], some fname⟩ ∧
      LineVecBuffer.open fs fname = Except.error OpenError.openFailed) ∧
    (fs fname = FsOutcome.permissionDenied →
      RopeBuffer.open fs fname = Except.error OpenError.permissionDenied ∧
      LineVecBuffer.open fs fname = Except.error OpenError.openFailed) ∧
    (fs fname = FsOutcome.otherError →
      RopeBuffer.open fs fname = Except.error OpenError.unknown ∧
      LineVecBuffer.open fs fname = Except.error OpenError.openFailed) := by
  refine ⟨fun h => ?_, fun h => ?_, fun h => ?_⟩ <;>
    exact ⟨by simp [RopeBuffer.open, h], by simp [LineVecBuffer.open, h]⟩

/-- C5 witness: the amended theorem applied to the all-missing oracle. -/
theorem open_error_handling_witness :
    fsAllNotFound "a" = FsOutcome.notFound ∧
    RopeBuffer.open fsAllNotFound "a" = Except.ok ⟨[], some "a"⟩ ∧
    LineVecBuffer.open fsAllNotFound "a" = Except.error OpenError.openFailed :=
  ⟨rfl, (open_error_handling fsAllNotFound "a").1 rfl⟩

theorem set_eraseIdx_succ (l : List α) (m : Nat) (v : α) (h : m + 1 < l.length) :
    (l.set m v).eraseIdx (m + 1) = l.take m ++ v :: l.drop (m + 2) := by
  induction l generalizing m with
  | nil => simp at h
  | cons c t ih =>
    cases m with
    | zero =>
      cases t with
      | nil => simp at h
      | cons d t2 => simp [List.eraseIdx]
    | succ m' =>
      have hm : m' + 1 < t.length := by simpa using h
      simp [List.eraseIdx, ih m' hm]

/-- C4 counterexample: on the two-line buffer `ab` / `cd` with the valid
cursor `(0, 1)`, the line-vector `Buffer::backspace` is not a no-op: it
joins the two lines and moves the cursor. -/
theorem backspace_col0_not_noop :
    cursorValid ⟨[['a', 'b'], ['c', 'd']], (0, 1)⟩ ∧
    EditorState.backspace ⟨[['a', 'b'], ['c', 'd']], (0, 1)⟩ ≠
      ⟨[['a', 'b'], ['c', 'd']], (0, 1)⟩ := by
  decide

/-- C4 (amended): for every valid cursor, the line-vector
`Buffer::backspace` (`src/src/editor/buffer.rs`) is a no-op at `(0, 0)`;
at column 0 of a later row it removes that row and appends its text to
the previous row, with the cursor at the junction; at a positive column
it removes exactly the character before the column and decrements the
column. The rope-based `Buffer::backspace`
(`src/not_vim/src/editor/buffer.rs`) does satisfy the original claim:
at column 0 it leaves text and cursor unchanged, and otherwise it
removes exactly the character at index `line_to_char(row) + column - 1`
and decrements the column. -/
theorem backspace_spec (s : EditorState) (hv : cursorValid s) :
    (s.cursor.1 = 0 → s.cursor.2 = 0 → s.backspace = s) ∧
    (s.cursor.1 = 0 → s.cursor.2 ≠ 0 →
      s.backspace.lines =
        s.lines.take (s.cursor.2 - 1) ++
          (s.lineAt (s.cursor.2 - 1) ++ s.lineAt s.cursor.2) ::
          s.lines.drop (s.cursor.2 + 1) ∧
      s.backspace.cursor = ((s.lineAt (s.cursor.2 - 1)).length, s.cursor.2 - 1)) ∧
    (s.cursor.1 ≠ 0 →
      s.backspace.lines =
        s.lines.set s.cursor.2
          ((s.lineAt s.cursor.2).take (s.cursor.1 - 1) ++
            (s.lineAt s.cursor.2).drop s.cursor.1) ∧
      s.backspace.cursor = (s.cursor.1 - 1, s.cursor.2)) ∧
    (∀ r : RopeState, r.cursor.1 = 0 → r.backspace = r) ∧
    (∀ r : RopeState, r.cursor.1 ≠ 0 →
      lineToChar r.text r.cursor.2 + r.cursor.1 - 1 < r.text.length →
      r.backspace.text =
        r.text.take (lineToChar r.text r.cursor.2 + r.cursor.1 - 1) ++
          r.text.drop (lineToChar r.text r.cursor.2 + r.cursor.1) ∧
      r.backspace.cursor = (r.cursor.1 - 1, r.cursor.2)) := by
  obtain ⟨hy, hx⟩ := hv
  refine ⟨?_, ?_, ?_, ?_, ?_⟩
  · intro h0 hy0
    simp [EditorState.backspace, h0, hy0]
  · intro h0 hyne
    obtain ⟨m, hm⟩ : ∃ m, s.cursor.2 = m + 1 := ⟨s.cursor.2 - 1, by omega⟩
    have hstep : s.backspace.lines =
        (s.lines.set (s.cursor.2 - 1)
          (s.lineAt (s.cursor.2 - 1) ++ s.lineAt s.cursor.2)).eraseIdx s.cursor.2 := by
      simp [EditorState.backspace, h0, hyne]
    refine ⟨?_, by simp [EditorState.backspace, h0, hyne]⟩
    rw [hstep, hm]
    simp only [Nat.add_sub_cancel]
    exact set_eraseIdx_succ s.lines m _ (by omega)
  · intro hne
    have hstep : s.backspace.lines =
        s.lines.set s.cursor.2 ((s.lineAt s.cursor.2).eraseIdx (s.cursor.1 - 1)) := by
      simp [EditorState.backspace, hne]
    refine ⟨?_, by simp [EditorState.backspace, hne]⟩
    rw [hstep]
    congr 1
    rw [eraseIdx_eq_take_append_drop _ _ (by omega)]
    congr 2
    omega
  · intro r h0
    simp [RopeState.backspace, h0]
  · intro r hne hlt
    have hstep : r.backspace.text =
        r.text.eraseIdx (lineToChar r.text r.cursor.2 + r.cursor.1 - 1) := by
      simp [RopeState.backspace, hne]
    refine ⟨?_, by simp [RopeState.backspace, hne]⟩
    rw [hstep]
    rw [eraseIdx_eq_take_append_drop _ _ hlt]
    congr 2
    omega

/-- C4 witness: the amended theorem applied at the concrete joining case
(`ab` / `cd`, cursor `(0, 1)`) of the line-vector backspace. -/
theorem backspace_spec_witness :
    cursorValid ⟨[['a', 'b'], ['c', 'd']], (0, 1)⟩ ∧
    (EditorState.backspace ⟨[['a', 'b'], ['c', 'd']], (0, 1)⟩).lines =
      [['a', 'b', 'c', 'd']] ∧
    (EditorState.backspace ⟨[['a', 'b'], ['c', 'd']], (0, 1)⟩).cursor = (2, 0) := by
  have h := (backspace_spec ⟨[['a', 'b'], ['c', 'd']], (0, 1)⟩ (by decide)).2.1
    rfl (by decide)
  exact ⟨by decide, h.1.trans (by decide), h.2.trans (by decide)⟩

/-- C6: for every valid cursor `(x, y)`, the line-vector
`Buffer::newline` splits line `y` at column `x` — the prefix stays, the
text from the column onward becomes a new line immediately below, all
other lines are untouched — and the cursor moves to `(0, y + 1)`; in
particular on the two-line buffer `ab` / `cd` with cursor `(2, 0)` the
result is the three lines `ab`, ``, `cd` with cursor `(0, 1)`, and the
rope-based `Buffer::newline` produces the same three lines and cursor on
the same input. -/
theorem newline_spec (s : EditorState) (hy : s.cursor.2 < s.lines.length)
    (hx : s.cursor.1 ≤ (s.lineAt s.cursor.2).length) :
    (s.newline.lines =
        s.lines.take s.cursor.2 ++
          (s.lineAt s.cursor.2).take s.cursor.1 ::
          (s.lineAt s.cursor.2).drop s.cursor.1 :: s.lines.drop (s.cursor.2 + 1) ∧
      s.newline.cursor = (0, s.cursor.2 + 1)) ∧
    EditorState.newline ⟨[['a', 'b'], ['c', 'd']], (2, 0)⟩ =
      ⟨[['a', 'b'], [], ['c', 'd']], (0, 1)⟩ ∧
    (ropeLines
        (RopeState.newline
          ⟨['a', 'b', Char.ofNat 0x0A, 'c', 'd'], (2, 0)⟩).text).map trimNewlines =
      [['a', 'b'], [], ['c', 'd']] ∧
    (RopeState.newline ⟨['a', 'b', Char.ofNat 0x0A, 'c', 'd'], (2, 0)⟩).cursor =
      (0, 1) := by
  refine ⟨⟨?_, rfl⟩, by decide, by decide, by decide⟩
  show (s.lines.set s.cursor.2 ((s.lineAt s.cursor.2).take s.cursor.1)).insertIdx
      (s.cursor.2 + 1) ((s.lineAt s.cursor.2).drop s.cursor.1) = _
  exact set_insertIdx_succ s.lines s.cursor.2 _ _ hy

/-- C6 witness: the theorem applied at the scenario input itself. -/
theorem newline_spec_witness :
    (2 ≤ (EditorState.lineAt ⟨[['a', 'b'], ['c', 'd']], (2, 0)⟩ 0).length) ∧
    EditorState.newline ⟨[['a', 'b'], ['c', 'd']], (2, 0)⟩ =
      ⟨[['a', 'b'], [], ['c', 'd']], (0, 1)⟩ :=
  ⟨by decide,
   (newline_spec ⟨[['a', 'b'], ['c', 'd']], (2, 0)⟩ (by decide) (by decide)).2.1⟩

theorem enumerate2dFrom_length (w k : Nat) (items : List Cell) :
    (enumerate2dFrom w k items).length = items.length := by
  induction items generalizing k with
  | nil => rfl
  | cons c rest ih => simp [enumerate2dFrom, ih]

theorem mem_enumerate2dFrom {w : Nat} {t : Cell × Nat × Nat} :
    ∀ {k : Nat} {items : List Cell},
      t ∈ enumerate2dFrom w k items ↔
        ∃ i, i < items.length ∧
          t = (items.getD i Cell.default, (k + i) % w, (k + i) / w) := by
  intro k items
  induction items generalizing k with
  | nil => simp [enumerate2dFrom]
  | cons c rest ih =>
    constructor
    · intro h
      rcases List.mem_cons.1 h with h | h
      · exact ⟨0, by simp, by simpa using h⟩
      · rcases ih.1 h with ⟨i, hi, ht⟩
        refine ⟨i + 1, by simpa using Nat.succ_lt_succ hi, ?_⟩
        have harith : k + 1 + i = k + (i + 1) := by omega
        rw [harith] at ht
        simpa using ht
    · rintro ⟨i, hi, ht⟩
      cases i with
      | zero =>
        exact List.mem_cons.2 (Or.inl (by simpa using ht))
      | succ j =>
        refine List.mem_cons.2 (Or.inr (ih.2 ⟨j, by simpa using hi, ?_⟩))
        have harith : k + (j + 1) = k + 1 + j := by omega
        rw [harith] at ht
        simpa using ht

theorem enumerate2dFrom_getD (w : Nat) :
    ∀ (k : Nat) (items : List Cell) (i : Nat), i < items.length →
      (enumerate2dFrom w k items).getD i (Cell.default, 0, 0) =
        (items.getD i Cell.default, (k + i) % w, (k + i) / w) := by
  intro k items
  induction items generalizing k with
  | nil => intro i h; simp at h
  | cons c rest ih =>
    intro i h
    cases i with
    | zero => simp [enumerate2dFrom]
    | succ j =>
      have hj : j < rest.length := by simpa using h
      have harith : k + (j + 1) = k + 1 + j := by omega
      rw [harith]
      simpa [enumerate2dFrom] using ih (k + 1) j hj

/-- Index recovery: the `other.content[y * width + x]` lookup in
`Buffer::diff`, at coordinates `x = i % w`, `y = i / w`, addresses
offset `i` itself. -/
theorem div_mul_add_mod (i w : Nat) : i / w * w + i % w = i := by
  rw [Nat.mul_comm]
  exact Nat.div_add_mod i w

/-- C1: for Grid Buffers of equal area (satisfying the length
invariant), `a.diff(b)` contains exactly the `(cell, x, y)` triples at
offsets where `a`'s cell differs from `b`'s cell, with `cell` the cell
of `a`, `x = offset % width` and `y = offset / width`; and `b.diff(b)`
is empty. -/
theorem buffer_diff_exact (a b : Buffer)
    (ha : a.content.length = a.area.width * a.area.height)
    (hb : b.content.length = b.area.width * b.area.height)
    (hab : a.area = b.area) :
    (∀ c x y, (c, x, y) ∈ a.diff b ↔
      ∃ i, i < a.content.length ∧
        a.content.getD i Cell.default ≠ b.content.getD i Cell.default ∧
        c = a.content.getD i Cell.default ∧
        x = i % a.area.width ∧ y = i / a.area.width) ∧
    b.diff b = [] := by
  have hcond : ¬(a.area ≠ b.area) := by simp [hab]
  constructor
  · intro c x y
    rw [Buffer.diff, if_neg hcond]
    rw [List.mem_filter]
    rw [show enumerate2d a.content a.area = enumerate2dFrom a.area.width 0 a.content
      from rfl]
    rw [mem_enumerate2dFrom]
    constructor
    · rintro ⟨⟨i, hi, ht⟩, hp⟩
      rw [Prod.mk.injEq, Prod.mk.injEq] at ht
      obtain ⟨hc, hx, hy⟩ := ht
      simp only [Nat.zero_add] at hx hy
      refine ⟨i, hi, ?_, hc, hx, hy⟩
      rw [decide_eq_true_eq] at hp
      rw [hc, hx, hy, div_mul_add_mod i a.area.width] at hp
      exact hp
    · rintro ⟨i, hi, hne, hc, hx, hy⟩
      refine ⟨⟨i, hi, ?_⟩, ?_⟩
      · rw [Prod.mk.injEq, Prod.mk.injEq]
        exact ⟨hc, by simpa using hx, by simpa using hy⟩
      · rw [decide_eq_true_eq]
        simp only [hc, hx, hy]
        rw [div_mul_add_mod i a.area.width]
        exact hne
  · rw [Buffer.diff, if_neg (by simp)]
    rw [List.filter_eq_nil_iff]
    intro t ht
    rw [show enumerate2d b.content b.area = enumerate2dFrom b.area.width 0 b.content
      from rfl] at ht
    rcases mem_enumerate2dFrom.1 ht with ⟨i, hi, hteq⟩
    subst hteq
    simp only [Nat.zero_add, decide_eq_true_eq, not_not]
    rw [div_mul_add_mod i b.area.width]

/-- C1 witness: the theorem applied to two concrete 2×2 buffers; its
second conjunct gives the reflexivity instance. -/
theorem buffer_diff_exact_witness :
    (⟨List.replicate 4 Cell.default, ⟨0, 0, 2, 2⟩⟩ : Buffer).content.length =
      2 * 2 ∧
    Buffer.diff ⟨List.replicate 4 Cell.default, ⟨0, 0, 2, 2⟩⟩
      ⟨List.replicate 4 Cell.default, ⟨0, 0, 2, 2⟩⟩ = [] :=
  ⟨by decide,
   (buffer_diff_exact ⟨List.replicate 4 Cell.default, ⟨0, 0, 2, 2⟩⟩
     ⟨List.replicate 4 Cell.default, ⟨0, 0, 2, 2⟩⟩ (by decide) (by decide) rfl).2⟩

theorem fin2_one_sub_ne : ∀ v : Fin 2, 1 - v ≠ v := by
  decide

/-- C2: `Terminal::resize` resizes only the buffer currently being drawn
into and leaves the display-side buffer (and the index) unchanged; for
any two Grid Buffers whose areas differ, `diff` returns one entry per
cell of the receiver (the cell with its row-major coordinates); hence
the flush following such a resize emits a write for every cell of the
new current area. -/
theorem terminal_resize_full_repaint (t : Terminal) (area : Rect)
    (hne : area ≠ t.displayBuf.area) :
    ((t.resize area).displayBuf = t.displayBuf ∧
     (t.resize area).currentBufIdx = t.currentBufIdx ∧
     (t.resize area).currentBuf = t.currentBuf.resize area) ∧
    (∀ u v : Buffer, u.area ≠ v.area →
      (u.diff v).length = u.content.length ∧
      ∀ i, i < u.content.length →
        (u.diff v).getD i (Cell.default, 0, 0) =
          (u.content.getD i Cell.default, i % u.area.width, i / u.area.width)) ∧
    ((t.resize area).flushCells.length = area.width * area.height ∧
     ∀ i, i < area.width * area.height →
       (t.resize area).flushCells.getD i (Cell.default, 0, 0) =
         ((t.resize area).currentBuf.content.getD i Cell.default,
          i % area.width, i / area.width)) := by
  have hdisp : (t.resize area).displayBuf = t.displayBuf := by
    simp only [Terminal.displayBuf, Terminal.resize]
    exact Function.update_noteq (fin2_one_sub_ne t.currentBufIdx) _ _
  have hcur : (t.resize area).currentBuf = t.currentBuf.resize area := by
    simp only [Terminal.currentBuf, Terminal.resize]
    exact Function.update_same ..
  have hgen : ∀ u v : Buffer, u.area ≠ v.area →
      (u.diff v).length = u.content.length ∧
      ∀ i, i < u.content.length →
        (u.diff v).getD i (Cell.default, 0, 0) =
          (u.content.getD i Cell.default, i % u.area.width, i / u.area.width) := by
    intro u v huv
    rw [Buffer.diff, if_pos huv]
    refine ⟨enumerate2dFrom_length .., fun i hi => ?_⟩
    simpa using enumerate2dFrom_getD u.area.width 0 u.content i hi
  refine ⟨⟨hdisp, rfl, hcur⟩, hgen, ?_⟩
  have hlen : (t.currentBuf.resize area).content.length = area.width * area.height :=
    Buffer.resize_content_length ..
  have hmismatch : (t.currentBuf.resize area).area ≠ (t.resize area).displayBuf.area := by
    rw [hdisp]
    exact hne
  have hflush := hgen (t.currentBuf.resize area) ((t.resize area).displayBuf) hmismatch
  rw [Terminal.flushCells, hcur]
  refine ⟨by rw [hflush.1, hlen], fun i hi => ?_⟩
  have := hflush.2 i (by rw [hlen]; exact hi)
  rw [this]
  rfl

/-- The concrete two-buffer terminal used by the C2 witness: a 1×1
current buffer (index 0) and a 2×2 display buffer. -/
def termW : Terminal where
  buffers := fun i =>
    if i = (0 : Fin 2) then ⟨List.replicate 1 Cell.default, ⟨0, 0, 1, 1⟩⟩
    else ⟨List.replicate 4 Cell.default, ⟨0, 0, 2, 2⟩⟩
  currentBufIdx := 0

/-- C2 witness: resizing `termW` to a 1×3 area (different from its
display buffer's 2×2 area) makes the flush emit `3 * 1` cell writes. -/
theorem terminal_resize_full_repaint_witness :
    (⟨0, 0, 1, 3⟩ : Rect) ≠ termW.displayBuf.area ∧
    (termW.resize ⟨0, 0, 1, 3⟩).flushCells.length = 3 * 1 :=
  ⟨by decide,
   (terminal_resize_full_repaint termW ⟨0, 0, 1, 3⟩ (by decide)).2.2.1⟩

theorem insertAt_length (l : List Char) (x : Nat) (c : Char) (h : x ≤ l.length) :
    (EditorState.insertAt l x c).length = l.length + 1 := by
  simp [EditorState.insertAt]
  omega

theorem push_preserves (s : EditorState) (c : Char) (h : cursorValid s) :
    cursorValid (s.push c) := by
  obtain ⟨hy, hx⟩ := h
  refine ⟨by simpa [EditorState.push] using hy, ?_⟩
  show s.cursor.1 + 1 ≤
    ((s.lines.set s.cursor.2 (EditorState.insertAt (s.lineAt s.cursor.2)
      s.cursor.1 c)).getD s.cursor.2 []).length
  rw [getD_set_eq _ _ _ _ hy]
  rw [insertAt_length _ _ _ hx]
  omega

theorem backspace_preserves (s : EditorState) (h : cursorValid s) :
    cursorValid s.backspace := by
  obtain ⟨hy, hx⟩ := h
  by_cases h0 : s.cursor.1 = 0
  · by_cases hy0 : s.cursor.2 = 0
    · have hstate : s.backspace = s := by
        simp [EditorState.backspace, h0, hy0]
      rw [hstate]
      exact ⟨hy, hx⟩
    · have hstate : s.backspace =
          ⟨(s.lines.set (s.cursor.2 - 1)
              (s.lineAt (s.cursor.2 - 1) ++ s.lineAt s.cursor.2)).eraseIdx s.cursor.2,
            ((s.lineAt (s.cursor.2 - 1)).length, s.cursor.2 - 1)⟩ := by
        simp [EditorState.backspace, h0, hy0]
      rw [hstate]
      have hlen : ((s.lines.set (s.cursor.2 - 1)
          (s.lineAt (s.cursor.2 - 1) ++ s.lineAt s.cursor.2)).eraseIdx
            s.cursor.2).length = s.lines.length - 1 := by
        rw [length_eraseIdx_of_lt _ _ (by simpa using hy)]
        simp
      refine ⟨?_, ?_⟩
      · show s.cursor.2 - 1 < _
        rw [hlen]
        omega
      · show (s.lineAt (s.cursor.2 - 1)).length ≤
          (((s.lines.set (s.cursor.2 - 1)
            (s.lineAt (s.cursor.2 - 1) ++ s.lineAt s.cursor.2)).eraseIdx
              s.cursor.2).getD (s.cursor.2 - 1) []).length
        rw [getD_eraseIdx_lt _ _ _ _ (by omega)]
        rw [getD_set_eq _ _ _ _ (by omega)]
        simp
  · have hstate : s.backspace =
        ⟨s.lines.set s.cursor.2 ((s.lineAt s.cursor.2).eraseIdx (s.cursor.1 - 1)),
          (s.cursor.1 - 1, s.cursor.2)⟩ := by
      simp [EditorState.backspace, h0]
    rw [hstate]
    refine ⟨by simpa using hy, ?_⟩
    show s.cursor.1 - 1 ≤
      ((s.lines.set s.cursor.2 ((s.lineAt s.cursor.2).eraseIdx
        (s.cursor.1 - 1))).getD s.cursor.2 []).length
    rw [getD_set_eq _ _ _ _ hy]
    rw [length_eraseIdx_of_lt _ _ (by omega)]
    omega

theorem newline_preserves (s : EditorState) (h : cursorValid s) :
    cursorValid s.newline := by
  obtain ⟨hy, hx⟩ := h
  refine ⟨?_, Nat.zero_le _⟩
  show s.cursor.2 + 1 <
    ((s.lines.set s.cursor.2 ((s.lineAt s.cursor.2).take s.cursor.1)).insertIdx
      (s.cursor.2 + 1) ((s.lineAt s.cursor.2).drop s.cursor.1)).length
  rw [List.length_insertIdx _ _ (by simpa using hy)]
  simp only [List.length_set]
  omega

theorem moveLeft_preserves (s : EditorState) (h : cursorValid s) :
    cursorValid s.moveLeft := by
  obtain ⟨hy, hx⟩ := h
  by_cases h0 : s.cursor.1 = 0
  · have hstate : s.moveLeft = s := by
      simp [EditorState.moveLeft, h0]
    rw [hstate]
    exact ⟨hy, hx⟩
  · have hstate : s.moveLeft = ⟨s.lines, (s.cursor.1 - 1, s.cursor.2)⟩ := by
      simp [EditorState.moveLeft, h0]
    rw [hstate]
    exact ⟨hy, Nat.le_trans (Nat.sub_le _ _) hx⟩

theorem moveRight_preserves (s : EditorState) (h : cursorValid s) :
    cursorValid s.moveRight := by
  obtain ⟨hy, hx⟩ := h
  by_cases hlt : s.cursor.1 < (trimNewlines (s.lineAt s.cursor.2)).length
  · have hstate : s.moveRight = ⟨s.lines, (s.cursor.1 + 1, s.cursor.2)⟩ := by
      simp [EditorState.moveRight, hlt]
    rw [hstate]
    exact ⟨hy, Nat.le_trans hlt (trimNewlines_length_le _)⟩
  · have hstate : s.moveRight = s := by
      simp [EditorState.moveRight, hlt]
    rw [hstate]
    exact ⟨hy, hx⟩

theorem moveDown_preserves (s : EditorState) (h : cursorValid s) :
    cursorValid s.moveDown := by
  obtain ⟨hy, hx⟩ := h
  by_cases hlast : s.cursor.2 = s.lines.length - 1
  · have hstate : s.moveDown = s := by
      simp [EditorState.moveDown, hlast]
    rw [hstate]
    exact ⟨hy, hx⟩
  · have hstate : s.moveDown =
        ⟨s.lines,
         (if (trimNewlines (s.lineAt (s.cursor.2 + 1))).length < s.cursor.1
          then (trimNewlines (s.lineAt (s.cursor.2 + 1))).length
          else s.cursor.1,
          s.cursor.2 + 1)⟩ := by
      simp [EditorState.moveDown, hlast]
    rw [hstate]
    refine ⟨by show s.cursor.2 + 1 < s.lines.length; omega, ?_⟩
    have hmin : (if (trimNewlines (s.lineAt (s.cursor.2 + 1))).length < s.cursor.1
        then (trimNewlines (s.lineAt (s.cursor.2 + 1))).length
        else s.cursor.1) ≤ (trimNewlines (s.lineAt (s.cursor.2 + 1))).length := by
      split <;> omega
    exact Nat.le_trans hmin (trimNewlines_length_le _)

theorem moveUp_preserves (s : EditorState) (h : cursorValid s) :
    cursorValid s.moveUp := by
  obtain ⟨hy, hx⟩ := h
  by_cases h0 : s.cursor.2 = 0
  · have hstate : s.moveUp = s := by
      simp [EditorState.moveUp, h0]
    rw [hstate]
    exact ⟨hy, hx⟩
  · have hstate : s.moveUp =
        ⟨s.lines,
         (if (trimNewlines (s.lineAt (s.cursor.2 - 1))).length < s.cursor.1
          then (trimNewlines (s.lineAt (s.cursor.2 - 1))).length
          else s.cursor.1,
          s.cursor.2 - 1)⟩ := by
      simp [EditorState.moveUp, h0]
    rw [hstate]
    refine ⟨by show s.cursor.2 - 1 < s.lines.length; omega, ?_⟩
    have hmin : (if (trimNewlines (s.lineAt (s.cursor.2 - 1))).length < s.cursor.1
        then (trimNewlines (s.lineAt (s.cursor.2 - 1))).length
        else s.cursor.1) ≤ (trimNewlines (s.lineAt (s.cursor.2 - 1))).length := by
      split <;> omega
    exact Nat.le_trans hmin (trimNewlines_length_le _)

/-- C3: starting from a state whose cursor is valid (`row < total_lines`
and `column ≤ len(line[row])`), applying any finite sequence of push,
backspace, newline and cursor-movement operations leaves the cursor
valid again. -/
theorem cursor_invariant_preserved (s : EditorState) (ops : List EditOp)
    (h : cursorValid s) : cursorValid (applyOps s ops) := by
  induction ops generalizing s with
  | nil => exact h
  | cons op rest ih =>
    have hstep : cursorValid (EditOp.apply s op) := by
      cases op with
      | push c => exact push_preserves s c h
      | backspace => exact backspace_preserves s h
      | newline => exact newline_preserves s h
      | moveLeft => exact moveLeft_preserves s h
      | moveRight => exact moveRight_preserves s h
      | moveUp => exact moveUp_preserves s h
      | moveDown => exact moveDown_preserves s h
    exact ih (EditOp.apply s op) hstep

/-- C3 witness: the invariant theorem applied to a concrete two-line
state and a concrete sequence exercising all seven operations. -/
theorem cursor_invariant_preserved_witness :
    cursorValid ⟨[['a', 'b'], ['c', 'd']], (0, 0)⟩ ∧
    cursorValid (applyOps ⟨[['a', 'b'], ['c', 'd']], (0, 0)⟩
      [EditOp.moveDown, EditOp.moveRight, EditOp.push 'x', EditOp.backspace,
       EditOp.newline, EditOp.moveUp, EditOp.moveLeft, EditOp.backspace]) :=
  ⟨by decide,
   cursor_invariant_preserved ⟨[['a', 'b'], ['c', 'd']], (0, 0)⟩
     [EditOp.moveDown, EditOp.moveRight, EditOp.push 'x', EditOp.backspace,
      EditOp.newline, EditOp.moveUp, EditOp.moveLeft, EditOp.backspace]
     (by decide)⟩

end NotVim
